import Mathlib

/-!
Shallow embedding of the `py-simpledatastore` repository
(`src/simpledatastore/simpledatastore.py`, `_id_file.py`, `_filehelper.py`).

Modelling conventions, matching the spec's scoping:
* Filesystem primitives (`create_file`, `write_file`, `read_file_lines`, ...)
  are external collaborators; a content file is modelled by its decoded
  identity: numeric id, the hash string embedded in its filename, and its
  content lines (`write_file` followed by `read_file_lines` is the identity
  on the line list).  The directory listing is a `List` in scan order; the
  ledger file `_ID.dat` (leading underscore, skipped by every scan) is kept
  separately as the list of its integer lines.
* `hashlib.md5(...).hexdigest()` is an external digest; it is a parameter
  `md5hex : String → String` applied to the UTF-8 string handed to it.
* Python exceptions are the named `PyError` values; a mutating operation
  returns the store state at the moment of return or raise, paired with
  `Except PyError` for its outcome.
-/

/-- The Python exceptions the store's code paths can produce:
`ValueError`/`KeyError` raised explicitly (with their messages),
`TypeError` from a membership test on `None`, and `AttributeError` from
calling a method on `None`. -/
inductive PyError where
  | valueError (msg : String)
  | keyError (msg : String)
  | typeError
  | attributeError
deriving DecidableEq, Repr

/-- One content file in the store directory: its decoded numeric id, the hash
string embedded in its filename, and its content lines
(`_filehelper.FilenameDescriptor` plus the file's content). -/
structure StoreFile where
  ID : Nat
  contentHash : String
  content : List String
deriving DecidableEq, Repr

/-- The observable state of a store directory: the integer lines of the
ledger file `_ID.dat` in file order, and the content files in directory
scan order. -/
structure StoreState where
  ledger : List Nat
  files : List StoreFile
deriving DecidableEq, Repr

/-- Python `list(set(xs))`: the distinct elements of `xs`.  CPython's set
iteration order is unspecified; the model fixes first-occurrence order
(none of the verified properties depend on this order). -/
def pySet : List Nat → List Nat
  | [] => []
  | x :: xs => x :: (pySet xs).filter (fun y => decide (¬ y = x))

/-- Python `set(xs) == set(ys)`: extensional equality of the two id sets. -/
def pySetEq (xs ys : List Nat) : Bool :=
  xs.all (fun x => decide (x ∈ ys)) && ys.all (fun y => decide (y ∈ xs))

/-- Decimal digits of `n`, least fuel-bounded form so that concrete inputs
evaluate by `decide`; `natToDigits` below supplies enough fuel. -/
def natToDigitsAux : Nat → Nat → List Char
  | 0, _ => []
  | fuel + 1, n =>
    if n < 10 then [Nat.digitChar n]
    else natToDigitsAux fuel (n / 10) ++ [Nat.digitChar (n % 10)]

/-- The characters of Python `str(n)` for a natural number `n`. -/
def natToDigits (n : Nat) : List Char :=
  natToDigitsAux (n + 1) n

/-- Python `int(s)` restricted to the strings the store produces: a nonempty
all-digit string parses to its decimal value, anything else raises
(`int()` also accepts signs and surrounding whitespace; no store filename
contains those). -/
def parseIntChars (cs : List Char) : Option Nat :=
  if cs.isEmpty then none
  else if cs.all Char.isDigit then
    some (cs.foldl (fun a c => 10 * a + (c.toNat - 48)) 0)
  else none

/-- Python `s.split(sep)` for a one-character separator: splits on every
occurrence, keeping empty segments. -/
def pySplit (sep : Char) : List Char → List (List Char)
  | [] => [[]]
  | c :: rest =>
    match pySplit sep rest with
    | [] => [[]]
    | g :: gs => if c = sep then [] :: g :: gs else (c :: g) :: gs

/-- `pathlib.Path(name).stem` on the final path component: the name without
its last dot-suffix (a dot at position 0 starts no suffix). -/
def pathStem (cs : List Char) : List Char :=
  match (cs.reverse).dropWhile (fun c => decide (¬ c = '.')) with
  | [] => cs
  | _ :: rest => if rest.isEmpty then cs else rest.reverse

/-- `re.compile(pat).match(s)` for a pattern of regex-literal characters
(decimal digits in every call site): does `pat` occur at the start of `s`. -/
def reMatch : List Char → List Char → Bool
  | [], _ => true
  | _ :: _, [] => false
  | p :: ps, c :: cs => decide (p = c) && reMatch ps cs

/-- `_filehelper.encode_filename`: the filename part of the produced path,
`str(id) + "_" + contentHash + ".dat"` (the store directory prefix carries
no information and is dropped from the pure model). -/
def encode_filename (id : Nat) (contentHash : String) : String :=
  String.mk (natToDigits id ++ '_' :: (contentHash.data ++ ['.', 'd', 'a', 't']))

/-- `_filehelper.decode_filename` on an existing file's name:
`int(stem.split("_")[0])` paired with `stem.split("_")[1]` taken verbatim;
`none` models the `ValueError`/`IndexError` raised on a malformed name
(the existence check on the path is a filesystem effect outside the pure
name computation). -/
def decode_filename (name : String) : Option (Nat × String) :=
  match pySplit '_' (pathStem name.data) with
  | s0 :: s1 :: _ =>
    match parseIntChars s0 with
    | some i => some (i, String.mk s1)
    | none => none
  | _ => none

/-- The on-disk filename of a content file, as characters: every content
file's name is its id and hash run through `encode_filename`. -/
def fileNameChars (f : StoreFile) : List Char :=
  natToDigits f.ID ++ '_' :: (f.contentHash.data ++ ['.', 'd', 'a', 't'])

/-- `_filehelper.find_file`: first file in directory scan order whose name
matches the regex at position 0 (`re.match`); every call site passes
`str(id)`, a digit-literal pattern, hence a plain starts-with test. -/
def find_file (files : List StoreFile) (pat : List Char) : Option StoreFile :=
  files.find? (fun f => reMatch pat (fileNameChars f))

/-- `SimpleDataStore.calc_hash`: the digest of all content lines joined with
no separator (`md5hex` is the external `hashlib.md5(...).hexdigest()` on the
UTF-8 bytes of that string). -/
def calcHash (md5hex : String → String) (content : List String) : String :=
  md5hex (String.join content)

/-- `IDFile.add_ID`: raises `KeyError` when the id is already a ledger line,
else appends it as a new line. -/
def add_ID (ledger : List Nat) (id : Nat) : Option (List Nat) :=
  if id ∈ ledger then none else some (ledger ++ [id])

/-- `IDFile.remove_ID`: raises `KeyError` when the id is absent, else
rewrites the ledger with the first occurrence of the id removed. -/
def remove_ID (ledger : List Nat) (id : Nat) : Option (List Nat) :=
  if id ∈ ledger then some (ledger.erase id) else none

/-- The loop body block of `IDFile.check_integrity`:
`tmp = list(set(ids))`, then every id with more than one occurrence is
removed from `tmp`. -/
def idfileSurvivors (ledger : List Nat) : List Nat :=
  (pySet ledger).foldl
    (fun acc el => if 1 < ledger.count el then acc.erase el else acc)
    (pySet ledger)

/-- All ids of a list of content files, in scan order ( `storeFileIDs` in
`simpledatastore.py`). -/
def fileIDs (files : List StoreFile) : List Nat :=
  files.map StoreFile.ID

/-- Re-adding a list of ids to a (purged) ledger through `IDFile.add_ID`;
`none` propagates the `KeyError` a duplicate re-add would raise. -/
def addAll (ledger : List Nat) : List Nat → Option (List Nat)
  | [] => some ledger
  | id :: rest =>
    match add_ID ledger id with
    | none => none
    | some l' => addAll l' rest

/-- `IDFile.check_integrity`: compute the ids surviving duplicate removal,
purge the ledger file, re-add each survivor through `add_ID`. -/
def idfileCheckIntegrity (ledger : List Nat) : Option (List Nat) :=
  addAll [] (idfileSurvivors ledger)

/-- `SimpleDataStore.list_IDs`: the ledger ids when the file-derived id set
equals the ledger id set, and the bare `return` — Python `None` — otherwise
(the `TODO` branch).  The call never raises; the `Except` layer records
that no named condition is signalled. -/
def list_IDs (s : StoreState) : Except PyError (Option (List Nat)) :=
  if pySetEq (fileIDs s.files) s.ledger then Except.ok (some s.ledger)
  else Except.ok none

/-- `SimpleDataStore.__remove_file_by_id`: delete every content file whose
decoded id is in the list (the surviving directory keeps scan order). -/
def removeFilesById (files : List StoreFile) (idList : List Nat) : List StoreFile :=
  files.filter (fun f => decide (¬ f.ID ∈ idList))

/-- The `doubles` list of `SimpleDataStore.check_integrity`: ids decoded
from more than one content file, in set-iteration order. -/
def doublesOf (sfids : List Nat) : List Nat :=
  (pySet sfids).filter (fun id => decide (1 < sfids.count id))

/-- Content files remaining after the duplicate-id step of
`SimpleDataStore.check_integrity` (`__remove_file_by_id(doubles)` runs only
when `doubles` is nonempty). -/
def dedupFiles (s : StoreState) : List StoreFile :=
  if 0 < (doublesOf (fileIDs s.files)).length
  then removeFilesById s.files (doublesOf (fileIDs s.files))
  else s.files

/-- The working id list after the duplicate-id step:
`storeFileIDs = list(set(storeFileIDs))` with each double removed, but only
when `doubles` is nonempty. -/
def dedupIDs (s : StoreState) : List Nat :=
  if 0 < (doublesOf (fileIDs s.files)).length
  then (doublesOf (fileIDs s.files)).foldl List.erase (pySet (fileIDs s.files))
  else fileIDs s.files

/-- Content files remaining after the ledger/file mismatch step of
`SimpleDataStore.check_integrity`.  The guard is the source's condition
verbatim: `not len(storeFileIDs) == len(idFileIDs) or
set(storeFileIDs) == set(idFileIDs)` — note the unnegated second disjunct. -/
def mismatchFiles (s : StoreState) (idFileIDs : List Nat) : List StoreFile :=
  if ¬ (dedupIDs s).length = idFileIDs.length ∨ pySetEq (dedupIDs s) idFileIDs = true
  then removeFilesById (dedupFiles s)
    ((dedupIDs s).filter (fun id => decide (¬ id ∈ idFileIDs)))
  else dedupFiles s

/-- Content files surviving all three file-deleting steps of
`SimpleDataStore.check_integrity` (duplicates, ledger mismatch, hash
verification), given the ledger as read after its self-repair. -/
def survivors (md5hex : String → String) (s : StoreState) (idFileIDs : List Nat) :
    List StoreFile :=
  (mismatchFiles s idFileIDs).filter
    (fun f => decide (calcHash md5hex f.content = f.contentHash))

/-- `SimpleDataStore.check_integrity`: ledger self-repair, duplicate-id file
removal, ledger/file mismatch deletion, hash verification, then ledger
rebuild (`purge_IDs` followed by `add_ID` for each surviving file id);
`none` propagates any `KeyError` of the re-add loops. -/
def checkIntegrity (md5hex : String → String) (s : StoreState) : Option StoreState :=
  match idfileCheckIntegrity s.ledger with
  | none => none
  | some idFileIDs =>
    match addAll [] (fileIDs (survivors md5hex s idFileIDs)) with
    | none => none
    | some newLedger => some ⟨newLedger, survivors md5hex s idFileIDs⟩

/-- `SimpleDataStore.add_storage_file`: membership test on the `list_IDs`
result (a `TypeError` when that is `None`), the duplicate-id `ValueError`,
ledger append, then creation of the content file named by
`encode_filename`.  The returned state is the store at return or raise
time. -/
def add_storage_file (md5hex : String → String) (s : StoreState) (id : Nat)
    (content : List String) : StoreState × Except PyError Unit :=
  match list_IDs s with
  | Except.error e => (s, Except.error e)
  | Except.ok none => (s, Except.error PyError.typeError)
  | Except.ok (some ids) =>
    if id ∈ ids then (s, Except.error (PyError.valueError "ID already used in store!"))
    else
      match add_ID s.ledger id with
      | none => (s, Except.error (PyError.keyError "ID already present in ID-File!"))
      | some l' =>
        (⟨l', s.files ++ [⟨id, calcHash md5hex content, content⟩]⟩, Except.ok ())

/-- `SimpleDataStore.delete_storage_file`: membership test on the `list_IDs`
result (a `TypeError` when that is `None`), the unknown-id `ValueError`,
ledger removal, then deletion of the first file whose name `re.match`es
`str(id)` (an `AttributeError` from `del_file(None)` if none matches). -/
def delete_storage_file (s : StoreState) (id : Nat) : StoreState × Except PyError Unit :=
  match list_IDs s with
  | Except.error e => (s, Except.error e)
  | Except.ok none => (s, Except.error PyError.typeError)
  | Except.ok (some ids) =>
    if ¬ id ∈ ids then (s, Except.error (PyError.valueError "ID not in file store!"))
    else
      match remove_ID s.ledger id with
      | none => (s, Except.error (PyError.keyError "ID not found in ID-File!"))
      | some l' =>
        match find_file s.files (natToDigits id) with
        | none => (⟨l', s.files⟩, Except.error PyError.attributeError)
        | some f => (⟨l', s.files.erase f⟩, Except.ok ())

/-- `SimpleDataStore.read_storage_data`: content lines of the first file
whose name `re.match`es `str(id)`; an `AttributeError` from
`read_file_lines(None)` when no file matches. -/
def read_storage_data (s : StoreState) (id : Nat) : Except PyError (List String) :=
  match find_file s.files (natToDigits id) with
  | none => Except.error PyError.attributeError
  | some f => Except.ok f.content

/-- A stand-in digest used to instantiate the external `md5hex` parameter on
concrete inputs (any function of the joined content text gives a faithful
instance of the parametric model). -/
def digestStub : String → String := fun s => s

example : pySet [2, 1, 2, 3, 1] = [2, 1, 3] := by decide
example : natToDigits 120 = ['1', '2', '0'] := by decide
example : parseIntChars ['1', '2'] = some 12 := by decide
example : pySplit '_' ['5', '_', 'a', '_', 'b'] = [['5'], ['a'], ['b']] := by decide
example : pathStem ['5', '_', 'a', '.', 'd', 'a', 't'] = ['5', '_', 'a'] := by decide
example : reMatch ['1'] ['1', '2', '_'] = true := by decide

theorem mem_pySet {a : Nat} {xs : List Nat} : a ∈ pySet xs ↔ a ∈ xs := by
  induction xs with
  | nil => simp [pySet]
  | cons x xs ih =>
    by_cases hax : a = x
    · subst hax; simp [pySet]
    · simp [pySet, List.mem_filter, hax, ih]

theorem nodup_pySet (xs : List Nat) : (pySet xs).Nodup := by
  induction xs with
  | nil => simp [pySet]
  | cons x xs ih =>
    refine List.Nodup.cons ?_ (ih.filter _)
    intro hx
    rcases List.mem_filter.mp hx with ⟨_, hne⟩
    simp at hne

theorem pySet_of_nodup {xs : List Nat} (h : xs.Nodup) : pySet xs = xs := by
  induction xs with
  | nil => rfl
  | cons x xs ih =>
    rcases List.nodup_cons.mp h with ⟨hx, hxs⟩
    have hset : pySet xs = xs := ih hxs
    show x :: (pySet xs).filter (fun y => decide (¬ y = x)) = x :: xs
    rw [hset]
    congr 1
    apply List.filter_eq_self.mpr
    intro a ha
    simp only [decide_eq_true_eq]
    intro hax
    exact hx (hax ▸ ha)

theorem pySetEq_iff {xs ys : List Nat} :
    pySetEq xs ys = true ↔ ∀ a, (a ∈ xs ↔ a ∈ ys) := by
  simp only [pySetEq, Bool.and_eq_true, List.all_eq_true, decide_eq_true_eq]
  constructor
  · rintro ⟨h1, h2⟩ a
    exact ⟨fun ha => h1 a ha, fun ha => h2 a ha⟩
  · intro h
    exact ⟨fun a ha => (h a).mp ha, fun a ha => (h a).mpr ha⟩

theorem pySetEq_self (xs : List Nat) : pySetEq xs xs = true :=
  pySetEq_iff.mpr (fun _ => Iff.rfl)

theorem pySetEq_append {xs ys : List Nat} (a : Nat) (h : pySetEq xs ys = true) :
    pySetEq (xs ++ [a]) (ys ++ [a]) = true := by
  apply pySetEq_iff.mpr
  intro b
  have := pySetEq_iff.mp h b
  simp only [List.mem_append, List.mem_singleton]
  tauto

theorem foldlErase_mem {p : Nat → Prop} [DecidablePred p] {base : List Nat}
    (hb : base.Nodup) (d : List Nat) (x : Nat) :
    x ∈ d.foldl (fun acc el => if p el then acc.erase el else acc) base ↔
      x ∈ base ∧ ¬ (p x ∧ x ∈ d) := by
  induction d generalizing base with
  | nil => simp
  | cons el rest ih =>
    have hstep : (if p el then base.erase el else base).Nodup := by
      by_cases hp : p el
      · simpa [hp] using hb.erase el
      · simpa [hp] using hb
    have := ih hstep
    simp only [List.foldl_cons] at *
    rw [this]
    by_cases hp : p el
    · simp only [hp, if_pos]
      rw [List.Nodup.mem_erase_iff hb]
      constructor
      · rintro ⟨⟨hne, hx⟩, hnr⟩
        refine ⟨hx, ?_⟩
        rintro ⟨hpx, hmem⟩
        rcases List.mem_cons.mp hmem with h1 | h1
        · exact hne h1
        · exact hnr ⟨hpx, h1⟩
      · rintro ⟨hx, hn⟩
        have hne : x ≠ el := by
          intro hxe
          exact hn ⟨hxe ▸ hp, hxe ▸ List.mem_cons_self el rest⟩
        refine ⟨⟨hne, hx⟩, ?_⟩
        rintro ⟨hpx, hr⟩
        exact hn ⟨hpx, List.mem_cons_of_mem el hr⟩
    · simp only [hp, if_neg, not_false_iff]
      constructor
      · rintro ⟨hx, hnr⟩
        refine ⟨hx, ?_⟩
        rintro ⟨hpx, hmem⟩
        rcases List.mem_cons.mp hmem with h1 | h1
        · exact hp (h1 ▸ hpx)
        · exact hnr ⟨hpx, h1⟩
      · rintro ⟨hx, hn⟩
        refine ⟨hx, ?_⟩
        rintro ⟨hpx, hr⟩
        exact hn ⟨hpx, List.mem_cons_of_mem el hr⟩

theorem foldlErase_nodup {p : Nat → Prop} [DecidablePred p] {base : List Nat}
    (hb : base.Nodup) (d : List Nat) :
    (d.foldl (fun acc el => if p el then acc.erase el else acc) base).Nodup := by
  induction d generalizing base with
  | nil => simpa
  | cons el rest ih =>
    have hstep : (if p el then base.erase el else base).Nodup := by
      by_cases hp : p el
      · simpa [hp] using hb.erase el
      · simpa [hp] using hb
    simpa using ih hstep

theorem foldlErase_of_none {p : Nat → Prop} [DecidablePred p] {base : List Nat}
    (d : List Nat) (h : ∀ el ∈ d, ¬ p el) :
    d.foldl (fun acc el => if p el then acc.erase el else acc) base = base := by
  induction d generalizing base with
  | nil => rfl
  | cons el rest ih =>
    have hel : ¬ p el := h el (List.mem_cons_self el rest)
    simp only [List.foldl_cons, if_neg hel]
    exact ih (fun e he => h e (List.mem_cons_of_mem el he))

theorem addAll_of_nodup : ∀ (ids acc : List Nat), (acc ++ ids).Nodup →
    addAll acc ids = some (acc ++ ids) := by
  intro ids
  induction ids with
  | nil => intro acc _; simp [addAll]
  | cons id rest ih =>
    intro acc h
    have hid : ¬ id ∈ acc := by
      intro hmem
      have : ¬ acc.Disjoint (id :: rest) := by
        intro hd
        exact hd hmem (List.mem_cons_self id rest)
      exact this (List.disjoint_of_nodup_append h)
    have hre : ((acc ++ [id]) ++ rest).Nodup := by
      simpa [List.append_assoc] using h
    simp only [addAll, add_ID, if_neg hid]
    simpa [List.append_assoc] using ih (acc ++ [id]) hre

theorem natToDigitsAux_fuel {fuel fuel' n : Nat} (h : n < fuel) (h' : n < fuel') :
    natToDigitsAux fuel n = natToDigitsAux fuel' n := by
  induction fuel generalizing fuel' n with
  | zero => omega
  | succ f ih =>
    cases fuel' with
    | zero => omega
    | succ f' =>
      by_cases h10 : n < 10
      · simp [natToDigitsAux, h10]
      · have hlt : n / 10 < n := Nat.div_lt_self (by omega) (by omega)
        simp only [natToDigitsAux, if_neg h10]
        rw [ih (show n / 10 < f by omega) (show n / 10 < f' by omega)]

theorem natToDigits_of_lt {n : Nat} (h : n < 10) :
    natToDigits n = [Nat.digitChar n] := by
  simp [natToDigits, natToDigitsAux, h]

theorem natToDigits_of_ge {n : Nat} (h : 10 ≤ n) :
    natToDigits n = natToDigits (n / 10) ++ [Nat.digitChar (n % 10)] := by
  have hlt : n / 10 < n := Nat.div_lt_self (by omega) (by omega)
  show natToDigitsAux (n + 1) n = _
  simp only [natToDigitsAux, if_neg (by omega : ¬ n < 10)]
  rw [natToDigitsAux_fuel (by omega : n / 10 < n) (by omega : n / 10 < n / 10 + 1)]
  rfl

theorem digitChar_toNat {d : Nat} (h : d < 10) : (Nat.digitChar d).toNat = 48 + d := by
  interval_cases d <;> rfl

theorem digitChar_isDigit {d : Nat} (h : d < 10) : (Nat.digitChar d).isDigit = true := by
  interval_cases d <;> rfl

theorem natToDigits_all_digits : ∀ fuel n, n < fuel →
    ∀ c ∈ natToDigitsAux fuel n, c.isDigit = true := by
  intro fuel
  induction fuel with
  | zero => omega
  | succ f ih =>
    intro n hn c hc
    by_cases h10 : n < 10
    · simp [natToDigitsAux, h10] at hc
      subst hc
      exact digitChar_isDigit h10
    · simp only [natToDigitsAux, if_neg h10] at hc
      rcases List.mem_append.mp hc with h1 | h1
      · have hlt : n / 10 < n := Nat.div_lt_self (by omega) (by omega)
        exact ih (n / 10) (by omega) c h1
      · simp at h1
        subst h1
        exact digitChar_isDigit (Nat.mod_lt n (by omega))

theorem natToDigits_digits {n : Nat} : ∀ c ∈ natToDigits n, c.isDigit = true :=
  natToDigits_all_digits (n + 1) n (by omega)

theorem natToDigits_ne_nil (n : Nat) : natToDigits n ≠ [] := by
  by_cases h10 : n < 10
  · rw [natToDigits_of_lt h10]
    simp
  · rw [natToDigits_of_ge (by omega)]
    simp

theorem underscore_not_mem_natToDigits (n : Nat) : ¬ '_' ∈ natToDigits n := by
  intro hmem
  have := natToDigits_digits '_' hmem
  simp [Char.isDigit] at this

theorem natToDigitsAux_fold : ∀ fuel n, n < fuel → ∀ a : Nat,
    (natToDigitsAux fuel n).foldl (fun acc c => 10 * acc + (c.toNat - 48)) a =
      a * 10 ^ (natToDigitsAux fuel n).length + n := by
  intro fuel
  induction fuel with
  | zero => omega
  | succ f ih =>
    intro n hn a
    by_cases h10 : n < 10
    · simp only [natToDigitsAux, if_pos h10, List.foldl_cons, List.foldl_nil,
        List.length_singleton, pow_one]
      rw [digitChar_toNat h10]
      omega
    · have hlt : n / 10 < n := Nat.div_lt_self (by omega) (by omega)
      simp only [natToDigitsAux, if_neg h10, List.foldl_append, List.foldl_cons,
        List.foldl_nil, List.length_append, List.length_singleton]
      rw [ih (n / 10) (by omega) a]
      rw [digitChar_toNat (Nat.mod_lt n (by omega))]
      have hv : 48 + n % 10 - 48 = n % 10 := by omega
      rw [hv, pow_succ]
      have hd : 10 * (n / 10) + n % 10 = n := Nat.div_add_mod n 10
      calc 10 * (a * 10 ^ (natToDigitsAux f (n / 10)).length + n / 10) + n % 10
          = a * (10 ^ (natToDigitsAux f (n / 10)).length * 10) +
              (10 * (n / 10) + n % 10) := by ring
        _ = a * (10 ^ (natToDigitsAux f (n / 10)).length * 10) + n := by rw [hd]

theorem parseIntChars_natToDigits (n : Nat) : parseIntChars (natToDigits n) = some n := by
  unfold parseIntChars
  rw [if_neg (by simpa using natToDigits_ne_nil n)]
  rw [if_pos (List.all_eq_true.mpr (fun c hc => natToDigits_digits c hc))]
  have := natToDigitsAux_fold (n + 1) n (by omega) 0
  show some ((natToDigitsAux (n + 1) n).foldl _ 0) = some n
  rw [this]
  simp

theorem pySplit_ne_nil (sep : Char) (cs : List Char) : pySplit sep cs ≠ [] := by
  cases cs with
  | nil => simp [pySplit]
  | cons c rest =>
    simp only [pySplit]
    cases h : pySplit sep rest with
    | nil => simp
    | cons g gs =>
      by_cases hc : c = sep <;> simp [hc]

theorem pySplit_of_no_sep {sep : Char} {cs : List Char} (h : ¬ sep ∈ cs) :
    pySplit sep cs = [cs] := by
  induction cs with
  | nil => rfl
  | cons c rest ih =>
    have hc : ¬ c = sep := by
      intro he
      exact h (he ▸ List.mem_cons_self c rest)
    have hr : ¬ sep ∈ rest := fun hm => h (List.mem_cons_of_mem c hm)
    simp only [pySplit, ih hr]
    simp [hc]

theorem pySplit_append {sep : Char} {a : List Char} (b : List Char) (h : ¬ sep ∈ a) :
    pySplit sep (a ++ sep :: b) = a :: pySplit sep b := by
  induction a with
  | nil =>
    simp only [List.nil_append, pySplit]
    cases hb : pySplit sep b with
    | nil => exact absurd hb (pySplit_ne_nil sep b)
    | cons g gs => simp
  | cons x xs ih =>
    have hx : ¬ x = sep := by
      intro he
      exact h (he ▸ List.mem_cons_self x xs)
    have hxs : ¬ sep ∈ xs := fun hm => h (List.mem_cons_of_mem x hm)
    simp only [List.cons_append, pySplit, List.append_eq]
    rw [ih hxs]
    simp [hx]

theorem pathStem_dat {s : List Char} (h : s ≠ []) :
    pathStem (s ++ ['.', 'd', 'a', 't']) = s := by
  unfold pathStem
  rw [List.reverse_append]
  have hdw : ((['.', 'd', 'a', 't'] : List Char).reverse ++ s.reverse).dropWhile
      (fun c => decide (¬ c = '.')) = '.' :: s.reverse := by
    simp [List.dropWhile]
  rw [hdw]
  have hrev : s.reverse ≠ [] := by
    intro he
    exact h (by simpa using congrArg List.reverse he)
  have hne : s.reverse.isEmpty = false := by
    cases hs : s.reverse with
    | nil => exact absurd hs hrev
    | cons x xs => rfl
  simp [hne]

theorem mem_idfileSurvivors {ledger : List Nat} {x : Nat} :
    x ∈ idfileSurvivors ledger ↔ ledger.count x = 1 := by
  unfold idfileSurvivors
  rw [foldlErase_mem (nodup_pySet ledger)]
  simp only [mem_pySet]
  constructor
  · rintro ⟨hx, hn⟩
    have hpos : 0 < ledger.count x := List.count_pos_iff.mpr hx
    have hle : ledger.count x ≤ 1 := by
      by_contra hgt
      exact hn ⟨by omega, hx⟩
    omega
  · intro h
    have hx : x ∈ ledger := List.count_pos_iff.mp (by omega)
    exact ⟨hx, by rintro ⟨hgt, _⟩; omega⟩

theorem nodup_idfileSurvivors (ledger : List Nat) : (idfileSurvivors ledger).Nodup :=
  foldlErase_nodup (nodup_pySet ledger) (pySet ledger)

theorem idfileCheckIntegrity_eq (ledger : List Nat) :
    idfileCheckIntegrity ledger = some (idfileSurvivors ledger) := by
  unfold idfileCheckIntegrity
  simpa using addAll_of_nodup (idfileSurvivors ledger) [] (by simpa using nodup_idfileSurvivors ledger)

theorem idfileSurvivors_of_nodup {ledger : List Nat} (h : ledger.Nodup) :
    idfileSurvivors ledger = ledger := by
  unfold idfileSurvivors
  rw [foldlErase_of_none, pySet_of_nodup h]
  intro el _
  have := List.nodup_iff_count_le_one.mp h el
  omega

theorem count_fileIDs_filter_le (files : List StoreFile) (p : StoreFile → Bool) (id : Nat) :
    (fileIDs (files.filter p)).count id ≤ (fileIDs files).count id := by
  exact List.Sublist.count_le (List.Sublist.map StoreFile.ID (List.filter_sublist files)) id

theorem nodup_fileIDs_filter {files : List StoreFile} (p : StoreFile → Bool)
    (h : (fileIDs files).Nodup) : (fileIDs (files.filter p)).Nodup := by
  apply List.nodup_iff_count_le_one.mpr
  intro a
  calc (fileIDs (files.filter p)).count a ≤ (fileIDs files).count a :=
        count_fileIDs_filter_le files p a
    _ ≤ 1 := List.nodup_iff_count_le_one.mp h a

theorem mem_doublesOf {sfids : List Nat} {id : Nat} :
    id ∈ doublesOf sfids ↔ 1 < sfids.count id := by
  unfold doublesOf
  rw [List.mem_filter]
  simp only [mem_pySet, decide_eq_true_eq]
  constructor
  · rintro ⟨_, h⟩; exact h
  · intro h
    exact ⟨List.count_pos_iff.mp (by omega), h⟩

theorem nodup_fileIDs_dedupFiles (s : StoreState) : (fileIDs (dedupFiles s)).Nodup := by
  unfold dedupFiles
  by_cases hg : 0 < (doublesOf (fileIDs s.files)).length
  · rw [if_pos hg]
    apply List.nodup_iff_count_le_one.mpr
    intro a
    by_cases ha : a ∈ doublesOf (fileIDs s.files)
    · have : ¬ a ∈ fileIDs (removeFilesById s.files (doublesOf (fileIDs s.files))) := by
        intro hmem
        rcases List.mem_map.mp hmem with ⟨f, hf, hfa⟩
        rcases List.mem_filter.mp hf with ⟨_, hdec⟩
        rw [decide_eq_true_eq] at hdec
        exact hdec (hfa ▸ ha)
      rw [List.count_eq_zero.mpr this]
      omega
    · have hle : (fileIDs (removeFilesById s.files (doublesOf (fileIDs s.files)))).count a ≤
          (fileIDs s.files).count a := count_fileIDs_filter_le s.files _ a
      have : ¬ 1 < (fileIDs s.files).count a := fun h => ha (mem_doublesOf.mpr h)
      omega
  · rw [if_neg hg]
    apply List.nodup_iff_count_le_one.mpr
    intro a
    by_cases ha : a ∈ fileIDs s.files
    · have hnd : ¬ a ∈ doublesOf (fileIDs s.files) := by
        intro hmem
        exact hg (List.length_pos.mpr (fun he => by simp [he] at hmem))
      by_contra hc
      exact hnd (mem_doublesOf.mpr (by omega))
    · rw [List.count_eq_zero.mpr ha]
      omega

theorem nodup_fileIDs_mismatchFiles (s : StoreState) (idFileIDs : List Nat) :
    (fileIDs (mismatchFiles s idFileIDs)).Nodup := by
  unfold mismatchFiles
  split
  · exact nodup_fileIDs_filter _ (nodup_fileIDs_dedupFiles s)
  · exact nodup_fileIDs_dedupFiles s

theorem nodup_fileIDs_survivors (md5hex : String → String) (s : StoreState)
    (idFileIDs : List Nat) : (fileIDs (survivors md5hex s idFileIDs)).Nodup :=
  nodup_fileIDs_filter _ (nodup_fileIDs_mismatchFiles s idFileIDs)

theorem checkIntegrity_eq (md5hex : String → String) (s : StoreState) :
    checkIntegrity md5hex s =
      some ⟨fileIDs (survivors md5hex s (idfileSurvivors s.ledger)),
            survivors md5hex s (idfileSurvivors s.ledger)⟩ := by
  unfold checkIntegrity
  rw [idfileCheckIntegrity_eq]
  have h : addAll [] (fileIDs (survivors md5hex s (idfileSurvivors s.ledger))) =
      some (fileIDs (survivors md5hex s (idfileSurvivors s.ledger))) := by
    simpa using addAll_of_nodup _ []
      (by simpa using nodup_fileIDs_survivors md5hex s (idfileSurvivors s.ledger))
  simp [h]

theorem survivors_valid {md5hex : String → String} {s : StoreState}
    {idFileIDs : List Nat} {f : StoreFile}
    (h : f ∈ survivors md5hex s idFileIDs) :
    calcHash md5hex f.content = f.contentHash := by
  rcases List.mem_filter.mp h with ⟨_, hdec⟩
  exact of_decide_eq_true hdec

/-- Any state whose content-file ids are duplicate free, whose ledger lists
exactly those ids, and whose files all pass hash verification is a fixed
point of `check_integrity`.  Every run of `check_integrity` ends in such a
state, which is what makes reconciliation idempotent. -/
theorem checkIntegrity_fixed (md5hex : String → String) (t : StoreState)
    (hnd : (fileIDs t.files).Nodup)
    (hld : t.ledger = fileIDs t.files)
    (hval : ∀ f ∈ t.files, calcHash md5hex f.content = f.contentHash) :
    checkIntegrity md5hex t = some t := by
  have hledNodup : t.ledger.Nodup := by rw [hld]; exact hnd
  have hsurv : idfileSurvivors t.ledger = t.ledger := idfileSurvivors_of_nodup hledNodup
  have hdoubles : doublesOf (fileIDs t.files) = [] := by
    apply List.eq_nil_iff_forall_not_mem.mpr
    intro x hx
    have hcount := List.nodup_iff_count_le_one.mp hnd x
    have := mem_doublesOf.mp hx
    omega
  have hded : dedupFiles t = t.files := by
    unfold dedupFiles
    rw [hdoubles]
    simp
  have hdedIDs : dedupIDs t = fileIDs t.files := by
    unfold dedupIDs
    rw [hdoubles]
    simp
  have hmm : mismatchFiles t t.ledger = t.files := by
    unfold mismatchFiles
    rw [hdedIDs, hded, hld]
    rw [if_pos (Or.inr (pySetEq_self (fileIDs t.files)))]
    have hfilt : (fileIDs t.files).filter
        (fun id => decide (¬ id ∈ fileIDs t.files)) = [] := by
      apply List.eq_nil_iff_forall_not_mem.mpr
      intro x hx
      rcases List.mem_filter.mp hx with ⟨hmem, hdec⟩
      exact (of_decide_eq_true hdec) hmem
    rw [hfilt]
    unfold removeFilesById
    apply List.filter_eq_self.mpr
    intro f _
    simp
  have hsurvF : survivors md5hex t t.ledger = t.files := by
    unfold survivors
    rw [hmm]
    apply List.filter_eq_self.mpr
    intro f hf
    exact decide_eq_true (hval f hf)
  rw [checkIntegrity_eq, hsurv, hsurvF, ← hld]

/-- C2 — Integrity reconciliation is idempotent: for every initial directory
state (duplicated ids, orphan ledger entries, and hash-tampered files
included), running `check_integrity` a second time with no intervening
mutation returns exactly the state the first run produced: the same final
ledger contents and the same set of content files. -/
theorem C2_checkIntegrity_idempotent (md5hex : String → String) (s : StoreState) :
    (checkIntegrity md5hex s).bind (checkIntegrity md5hex) = checkIntegrity md5hex s := by
  rw [checkIntegrity_eq md5hex s]
  rw [Option.some_bind]
  apply checkIntegrity_fixed
  · exact nodup_fileIDs_survivors md5hex s (idfileSurvivors s.ledger)
  · rfl
  · intro f hf
    exact survivors_valid hf

theorem mem_dedupFiles_of {s : StoreState} {f : StoreFile} (h : f ∈ dedupFiles s) :
    f ∈ s.files := by
  unfold dedupFiles at h
  split at h
  · exact (List.mem_filter.mp h).1
  · exact h

theorem mem_mismatchFiles_of {s : StoreState} {idFileIDs : List Nat} {f : StoreFile}
    (h : f ∈ mismatchFiles s idFileIDs) : f ∈ dedupFiles s := by
  unfold mismatchFiles at h
  split at h
  · exact (List.mem_filter.mp h).1
  · exact h

/-- C1 — the ledger/file mismatch step does NOT delete every file whose id
is absent from the post-self-repair ledger: with ledger `[1]` and a single
valid-hash content file for id `2`, the two id lists have equal length but
unequal sets, the inverted guard
`not len(storeFileIDs) == len(idFileIDs) or set(storeFileIDs) == set(idFileIDs)`
skips the deletion, the file survives reconciliation, and the rebuilt
ledger becomes `[2]` — even though id `2` was not in the ledger as read
after self-repair (second conjunct). -/
theorem C1_unledgered_file_survives :
    checkIntegrity digestStub ⟨[1], [⟨2, "x", ["x"]⟩]⟩ =
      some ⟨[2], [⟨2, "x", ["x"]⟩]⟩ ∧
    ¬ (2 : Nat) ∈ idfileSurvivors [1] := by
  decide

/-- C5 — during reconciliation every file carrying a duplicated id is
deleted (not just the extras) and that id is absent from the rebuilt
ledger, while a file with a unique id, a matching hash, and exactly one
ledger entry survives with its id in the rebuilt ledger. -/
theorem C5_duplicates_purged_valid_untouched (md5hex : String → String)
    (s s' : StoreState) (h : checkIntegrity md5hex s = some s') :
    (∀ id, 1 < (fileIDs s.files).count id →
      (∀ f ∈ s'.files, ¬ f.ID = id) ∧ ¬ id ∈ s'.ledger) ∧
    (∀ f ∈ s.files, (fileIDs s.files).count f.ID = 1 →
      s.ledger.count f.ID = 1 →
      calcHash md5hex f.content = f.contentHash →
      f ∈ s'.files ∧ f.ID ∈ s'.ledger) := by
  rw [checkIntegrity_eq] at h
  have hs' : s' = ⟨fileIDs (survivors md5hex s (idfileSurvivors s.ledger)),
      survivors md5hex s (idfileSurvivors s.ledger)⟩ := by
    exact (Option.some.injEq _ _).mp h |>.symm
  subst hs'
  constructor
  · intro id hdup
    have hmemD : id ∈ doublesOf (fileIDs s.files) := mem_doublesOf.mpr hdup
    have hguard : 0 < (doublesOf (fileIDs s.files)).length :=
      List.length_pos.mpr (List.ne_nil_of_mem hmemD)
    have hnofile : ∀ f ∈ survivors md5hex s (idfileSurvivors s.ledger), ¬ f.ID = id := by
      intro f hf hfid
      have hfd : f ∈ dedupFiles s := mem_mismatchFiles_of (List.mem_filter.mp hf).1
      unfold dedupFiles at hfd
      rw [if_pos hguard] at hfd
      rcases List.mem_filter.mp hfd with ⟨_, hdec⟩
      exact (of_decide_eq_true hdec) (hfid ▸ hmemD)
    refine ⟨hnofile, ?_⟩
    intro hid
    rcases List.mem_map.mp hid with ⟨f, hf, hfid⟩
    exact hnofile f hf hfid
  · intro f hf hcount hledger hhash
    have hfd : f ∈ dedupFiles s := by
      unfold dedupFiles
      split
      · apply List.mem_filter.mpr
        refine ⟨hf, decide_eq_true ?_⟩
        intro hmem
        have := mem_doublesOf.mp hmem
        omega
      · exact hf
    have hfm : f ∈ mismatchFiles s (idfileSurvivors s.ledger) := by
      have hidL : f.ID ∈ idfileSurvivors s.ledger := mem_idfileSurvivors.mpr hledger
      unfold mismatchFiles
      split
      · apply List.mem_filter.mpr
        refine ⟨hfd, decide_eq_true ?_⟩
        intro hmem
        rcases List.mem_filter.mp hmem with ⟨_, hdec⟩
        exact (of_decide_eq_true hdec) hidL
      · exact hfd
    have hfs : f ∈ survivors md5hex s (idfileSurvivors s.ledger) :=
      List.mem_filter.mpr ⟨hfm, decide_eq_true hhash⟩
    exact ⟨hfs, List.mem_map_of_mem StoreFile.ID hfs⟩

/-- C5 witness: in the spec's duplicate-id scenario — one valid object
(id 1) plus two files both carrying id 2 — reconciliation leaves id 2 out
of the rebuilt ledger and keeps id 1's file. -/
theorem C5_witness :
    ¬ (2 : Nat) ∈ ([1] : List Nat) ∧
    (⟨1, "a", ["a"]⟩ : StoreFile) ∈ [(⟨1, "a", ["a"]⟩ : StoreFile)] := by
  have h := C5_duplicates_purged_valid_untouched digestStub
    ⟨[1, 2], [⟨1, "a", ["a"]⟩, ⟨2, "x", ["b"]⟩, ⟨2, "y", ["c"]⟩]⟩
    ⟨[1], [⟨1, "a", ["a"]⟩]⟩ (by decide)
  exact ⟨(h.1 2 (by decide)).2,
    (h.2 ⟨1, "a", ["a"]⟩ (by decide) (by decide) (by decide) (by decide)).1⟩

/-- C8 — the Index Ledger's own integrity check removes every id occurring
more than once entirely: the rebuilt ledger file contains exactly the ids
that occurred exactly once before the call, each once. -/
theorem C8_idfile_duplicates_removed_entirely (ledger l' : List Nat) (id : Nat)
    (h : idfileCheckIntegrity ledger = some l') :
    (id ∈ l' ↔ ledger.count id = 1) ∧ l'.Nodup := by
  rw [idfileCheckIntegrity_eq] at h
  have hl : l' = idfileSurvivors ledger := ((Option.some.injEq _ _).mp h).symm
  subst hl
  exact ⟨mem_idfileSurvivors, nodup_idfileSurvivors ledger⟩

/-- C8 witness: on ledger lines `[1, 2, 2, 3]` the duplicated id 2 has zero
surviving occurrences while `1` and `3` survive. -/
theorem C8_witness :
    ((2 : Nat) ∈ ([1, 3] : List Nat) ↔ ([1, 2, 2, 3] : List Nat).count 2 = 1) ∧
    ([1, 3] : List Nat).Nodup :=
  C8_idfile_duplicates_removed_entirely [1, 2, 2, 3] [1, 3] 2 (by decide)

/-- C3 counterexample — on a store whose ledger is `[1]` while the directory
holds one content file with id `2`, `list_IDs` returns normally with the
absent `None` value; it does not signal any of the named conditions
(`ValueError`, `KeyError`, `TypeError`, `AttributeError`) — there is no
`InconsistentState` condition anywhere in the code. -/
theorem C3_counterexample :
    list_IDs ⟨[1], [⟨2, "x", ["x"]⟩]⟩ = Except.ok none ∧
    ¬ ∃ e : PyError, list_IDs ⟨[1], [⟨2, "x", ["x"]⟩]⟩ = Except.error e := by
  refine ⟨rfl, ?_⟩
  rintro ⟨e, he⟩
  exact Except.noConfusion
    (show (Except.ok none : Except PyError (Option (List Nat))) = Except.error e from he)

/-- C3 (amended) — `list_IDs` returns the ledger's id list when the
file-derived id set equals the ledger id set, and otherwise returns the
absent `None` result: a value distinct from every id list, though an
unnamed signal rather than a named condition. -/
theorem C3_listIDs_consistent_or_none (s : StoreState) :
    ((∀ id, id ∈ fileIDs s.files ↔ id ∈ s.ledger) →
      list_IDs s = Except.ok (some s.ledger)) ∧
    (¬ (∀ id, id ∈ fileIDs s.files ↔ id ∈ s.ledger) →
      list_IDs s = Except.ok none ∧
      ∀ l : List Nat, ¬ list_IDs s = Except.ok (some l)) := by
  constructor
  · intro h
    unfold list_IDs
    rw [if_pos (pySetEq_iff.mpr h)]
  · intro h
    have hb : ¬ pySetEq (fileIDs s.files) s.ledger = true := fun hq => h (pySetEq_iff.mp hq)
    unfold list_IDs
    rw [if_neg hb]
    exact ⟨rfl, fun l he => nomatch ((Except.ok.injEq _ _).mp he)⟩

/-- C3 witness: the consistent branch on a one-object store, and the `None`
branch on a mismatched store. -/
theorem C3_witness :
    list_IDs ⟨[5], [⟨5, "a", ["a"]⟩]⟩ = Except.ok (some [5]) ∧
    list_IDs ⟨[1], [⟨2, "x", ["x"]⟩]⟩ = Except.ok none := by
  refine ⟨(C3_listIDs_consistent_or_none ⟨[5], [⟨5, "a", ["a"]⟩]⟩).1 (fun _ => Iff.rfl), ?_⟩
  exact ((C3_listIDs_consistent_or_none ⟨[1], [⟨2, "x", ["x"]⟩]⟩).2
    (fun hall => absurd ((hall 2).mp (by decide)) (by decide))).1

/-- C7 — `add_storage_file` with an id already known per `list_IDs` fails
with the duplicate-id condition (`ValueError("ID already used in store!")`,
distinct from every other condition the store raises) and returns with the
store state exactly as before the call: same ledger lines and same content
files, hence the prior object's content and filename are untouched. -/
theorem C7_duplicate_add_rejected_unchanged (md5hex : String → String)
    (s : StoreState) (id : Nat) (content : List String) (ids : List Nat)
    (h : list_IDs s = Except.ok (some ids)) (hid : id ∈ ids) :
    add_storage_file md5hex s id content =
      (s, Except.error (PyError.valueError "ID already used in store!")) := by
  unfold add_storage_file
  rw [h]
  simp [hid]

/-- C7 witness: adding id 5 again on a consistent one-object store. -/
theorem C7_witness :
    add_storage_file digestStub ⟨[5], [⟨5, "a", ["a"]⟩]⟩ 5 ["zz"] =
      (⟨[5], [⟨5, "a", ["a"]⟩]⟩,
       Except.error (PyError.valueError "ID already used in store!")) :=
  C7_duplicate_add_rejected_unchanged digestStub ⟨[5], [⟨5, "a", ["a"]⟩]⟩ 5 ["zz"] [5]
    rfl (by decide)

/-- C10 — on an inconsistent store (file-derived id set differs from the
ledger id set) `list_IDs` returns the absent `None` result, and both
`add_storage_file` and `delete_storage_file` then fail with the interpreter's
`TypeError` from the membership test on `None` — not one of the store's own
raised conditions — before any ledger or file mutation: the returned state
is exactly the input state. -/
theorem C10_inconsistent_gives_typeerror (md5hex : String → String)
    (s : StoreState) (id : Nat) (content : List String)
    (h : ¬ (∀ a, a ∈ fileIDs s.files ↔ a ∈ s.ledger)) :
    list_IDs s = Except.ok none ∧
    add_storage_file md5hex s id content = (s, Except.error PyError.typeError) ∧
    delete_storage_file s id = (s, Except.error PyError.typeError) := by
  have hb : ¬ pySetEq (fileIDs s.files) s.ledger = true := fun hq => h (pySetEq_iff.mp hq)
  have hl : list_IDs s = Except.ok none := by
    unfold list_IDs
    rw [if_neg hb]
  refine ⟨hl, ?_, ?_⟩
  · unfold add_storage_file
    rw [hl]
  · unfold delete_storage_file
    rw [hl]

/-- C10 witness: ledger `[1]` against a directory holding only id 2's file. -/
theorem C10_witness :
    list_IDs ⟨[1], [⟨2, "x", ["x"]⟩]⟩ = Except.ok none ∧
    add_storage_file digestStub ⟨[1], [⟨2, "x", ["x"]⟩]⟩ 3 ["a"] =
      (⟨[1], [⟨2, "x", ["x"]⟩]⟩, Except.error PyError.typeError) ∧
    delete_storage_file ⟨[1], [⟨2, "x", ["x"]⟩]⟩ 3 =
      (⟨[1], [⟨2, "x", ["x"]⟩]⟩, Except.error PyError.typeError) :=
  C10_inconsistent_gives_typeerror digestStub ⟨[1], [⟨2, "x", ["x"]⟩]⟩ 3 ["a"]
    (fun hall => absurd ((hall 2).mp (by decide)) (by decide))

/-- C6 — filename codec round trip: for every id and every hash string
containing neither an underscore nor a path separator, decoding the
filename produced by `encode_filename` recovers exactly the id and the
hash. -/
theorem C6_codec_roundtrip (id : Nat) (h : String)
    (hu : ¬ '_' ∈ h.data) (hs : ¬ '/' ∈ h.data) :
    decode_filename (encode_filename id h) = some (id, h) := by
  unfold encode_filename decode_filename
  have hdata : (String.mk (natToDigits id ++ '_' :: (h.data ++ ['.', 'd', 'a', 't']))).data
      = (natToDigits id ++ '_' :: h.data) ++ ['.', 'd', 'a', 't'] := by
    simp
  rw [hdata]
  rw [pathStem_dat (by simp)]
  rw [pySplit_append h.data (underscore_not_mem_natToDigits id)]
  rw [pySplit_of_no_sep hu]
  show (match parseIntChars (natToDigits id) with
    | some i => some (i, String.mk h.data)
    | none => none) = some (id, h)
  rw [parseIntChars_natToDigits id]

/-- C6 witness: id 5 with hash "abc". -/
theorem C6_witness :
    decode_filename (encode_filename 5 "abc") = some (5, "abc") :=
  C6_codec_roundtrip 5 "abc" (by decide) (by decide)

theorem reMatch_self_append (p r : List Char) : reMatch p (p ++ r) = true := by
  induction p with
  | nil => rfl
  | cons x xs ih => simp [reMatch, ih]

theorem reMatch_through_underscore {p : List Char} (hnu : ¬ '_' ∈ p) :
    ∀ b r : List Char, reMatch p (b ++ '_' :: r) = true → reMatch p b = true := by
  induction p with
  | nil => intro b r _; rfl
  | cons x xs ih =>
    intro b r hm
    cases b with
    | nil =>
      simp only [List.nil_append, reMatch, Bool.and_eq_true, decide_eq_true_eq] at hm
      have : '_' ∈ x :: xs := by
        rw [← hm.1]
        exact List.mem_cons_self x xs
      exact absurd this hnu
    | cons y ys =>
      simp only [List.cons_append, reMatch, Bool.and_eq_true, decide_eq_true_eq] at hm ⊢
      exact ⟨hm.1, ih (fun hmem => hnu (List.mem_cons_of_mem x hmem)) ys r hm.2⟩

theorem reMatch_fileName {id : Nat} {f : StoreFile}
    (h : reMatch (natToDigits id) (fileNameChars f) = true) :
    reMatch (natToDigits id) (natToDigits f.ID) = true :=
  reMatch_through_underscore (underscore_not_mem_natToDigits id) _ _ h

theorem find?_append_of_none {α : Type} {p : α → Bool} {l1 : List α} (l2 : List α)
    (h : l1.find? p = none) : (l1 ++ l2).find? p = l2.find? p := by
  induction l1 with
  | nil => rfl
  | cons x xs ih =>
    rw [List.find?_cons] at h
    cases hx : p x with
    | false =>
      rw [List.cons_append, List.find?_cons, hx]
      rw [hx] at h
      exact ih h
    | true =>
      rw [hx] at h
      exact nomatch h

/-- C4 (amended) — on a consistent store, adding a fresh object whose
decimal id string prefix-matches no already-stored id's decimal string
succeeds; `list_IDs` then contains the id and `read_storage_data` returns
exactly the stored content lines.  (The prefix proviso is forced by
`find_file`'s `re.match(str(id))` lookup; see the C4 counterexample.) -/
theorem C4_add_then_list_and_read (md5hex : String → String) (s : StoreState)
    (id : Nat) (content : List String) (ids : List Nat)
    (hc : list_IDs s = Except.ok (some ids))
    (hfresh : ¬ id ∈ ids)
    (hnopre : ∀ f ∈ s.files, ¬ reMatch (natToDigits id) (natToDigits f.ID) = true) :
    (add_storage_file md5hex s id content).2 = Except.ok () ∧
    (∃ l, list_IDs (add_storage_file md5hex s id content).1 = Except.ok (some l) ∧
      id ∈ l) ∧
    read_storage_data (add_storage_file md5hex s id content).1 id =
      Except.ok content := by
  have hq : pySetEq (fileIDs s.files) s.ledger = true := by
    by_contra hqn
    unfold list_IDs at hc
    rw [if_neg hqn] at hc
    exact Option.noConfusion ((Except.ok.injEq _ _).mp hc)
  have hids : ids = s.ledger := by
    unfold list_IDs at hc
    rw [if_pos hq] at hc
    exact (Option.some.injEq _ _).mp ((Except.ok.injEq _ _).mp hc) |>.symm
  have hnl : ¬ id ∈ s.ledger := hids ▸ hfresh
  have hadd : add_storage_file md5hex s id content =
      (⟨s.ledger ++ [id], s.files ++ [⟨id, calcHash md5hex content, content⟩]⟩,
       Except.ok ()) := by
    simp [add_storage_file, hc, add_ID, hfresh, hnl]
  rw [hadd]
  refine ⟨rfl, ⟨s.ledger ++ [id], ?_, by simp⟩, ?_⟩
  · show list_IDs ⟨s.ledger ++ [id], s.files ++ [⟨id, calcHash md5hex content, content⟩]⟩ = _
    unfold list_IDs
    have hfid : fileIDs (s.files ++ [⟨id, calcHash md5hex content, content⟩]) =
        fileIDs s.files ++ [id] := by
      simp [fileIDs]
    rw [hfid]
    rw [if_pos (pySetEq_append id hq)]
  · show read_storage_data
      ⟨s.ledger ++ [id], s.files ++ [⟨id, calcHash md5hex content, content⟩]⟩ id = _
    unfold read_storage_data find_file
    have hnone : s.files.find?
        (fun f => reMatch (natToDigits id) (fileNameChars f)) = none := by
      apply List.find?_eq_none.mpr
      intro f hf
      intro hb
      exact hnopre f hf (reMatch_fileName hb)
    rw [find?_append_of_none _ hnone]
    rw [List.find?_cons]
    rw [show reMatch (natToDigits id)
        (fileNameChars ⟨id, calcHash md5hex content, content⟩) = true from
      reMatch_self_append (natToDigits id) _]

/-- C4 witness: adding id 5 with lines ["a", "b"] to an empty (consistent)
store, then listing and reading it back. -/
theorem C4_witness :
    (add_storage_file digestStub ⟨[], []⟩ 5 ["a", "b"]).2 = Except.ok () ∧
    (∃ l, list_IDs (add_storage_file digestStub ⟨[], []⟩ 5 ["a", "b"]).1 =
      Except.ok (some l) ∧ 5 ∈ l) ∧
    read_storage_data (add_storage_file digestStub ⟨[], []⟩ 5 ["a", "b"]).1 5 =
      Except.ok ["a", "b"] :=
  C4_add_then_list_and_read digestStub ⟨[], []⟩ 5 ["a", "b"] [] rfl (by decide)
    (fun f hf => absurd hf (List.not_mem_nil f))

/-- C4 counterexample — the claim fails for prefix ids: on a consistent
store holding only id 12 (file "12_b.dat" in scan order), `addObject(1,
["a"])` succeeds, but `readObject(1)` returns id 12's content `["b"]` —
not the stored `["a"]` — because `find_file` matches the pattern "1"
against the name "12_b.dat" first. -/
theorem C4_counterexample :
    (add_storage_file digestStub ⟨[12], [⟨12, "b", ["b"]⟩]⟩ 1 ["a"]).2 = Except.ok () ∧
    read_storage_data (add_storage_file digestStub ⟨[12], [⟨12, "b", ["b"]⟩]⟩ 1 ["a"]).1 1 =
      Except.ok ["b"] ∧
    ¬ read_storage_data (add_storage_file digestStub ⟨[12], [⟨12, "b", ["b"]⟩]⟩ 1 ["a"]).1 1 =
      Except.ok ["a"] := by
  refine ⟨rfl, rfl, ?_⟩
  intro hcontra
  have h2 : (Except.ok ["b"] : Except PyError (List String)) = Except.ok ["a"] := by
    rw [← hcontra]
    rfl
  exact absurd ((Except.ok.injEq _ _).mp h2) (by decide)

/-- C9 — `calc_hash` ignores line boundaries: any two line lists with equal
character-wise concatenation receive the same digest and hence the same
content-addressed filename for any id. -/
theorem C9_hash_ignores_line_bounds (md5hex : String → String)
    (l1 l2 : List String) (id : Nat) (h : String.join l1 = String.join l2) :
    calcHash md5hex l1 = calcHash md5hex l2 ∧
    encode_filename id (calcHash md5hex l1) = encode_filename id (calcHash md5hex l2) := by
  have hh : calcHash md5hex l1 = calcHash md5hex l2 := by
    unfold calcHash
    rw [h]
  exact ⟨hh, by rw [hh]⟩

/-- C9 witness: ["ab"] and ["a", "b"] share a digest and a filename. -/
theorem C9_witness :
    calcHash digestStub ["ab"] = calcHash digestStub ["a", "b"] ∧
    encode_filename 7 (calcHash digestStub ["ab"]) =
      encode_filename 7 (calcHash digestStub ["a", "b"]) :=
  C9_hash_ignores_line_bounds digestStub ["ab"] ["a", "b"] 7 rfl
